import Mathlib

/-!
Verification development for the DACCS-Climate/log-parser repository.

The embedding models `src/log_parser/log_parser.py` (the file-state
classifier `_check_file_state`, the `track_file` read/poll loop, the
handler invocation loop, and the `track_async`/`track` supervisor built on
`asyncio.TaskGroup` and `asyncio.timeout`) and the sys.path handling of
`_load_parser_configs` in `src/log_parser/cli.py`.

Python text-stream semantics (readline / file iteration), `os.stat`, and
the documented semantics of `asyncio.TaskGroup` and `asyncio.timeout` are
embedded explicitly where the source relies on them.
-/

namespace LogParser

/-- States of a tracked file, from the `_FileState` enum in
`log_parser.py` (NOCHANGE, TRUNCATED, DELETED, DIFFERENT). -/
inductive FileState where
  | NOCHANGE
  | TRUNCATED
  | DELETED
  | DIFFERENT
deriving DecidableEq, Repr

/-- Result of `os.stat`: the fields that `_check_file_state` can observe.
Python compares `os.stat_result` values field by field, which the derived
`DecidableEq` mirrors. -/
structure StatResult where
  st_dev : Nat
  st_ino : Nat
  st_size : Nat
  st_mtime : Nat
deriving DecidableEq, Repr

/-- Kinds of failure `os.stat` can raise: `FileNotFoundError`,
`PermissionError`, or some other `OSError`. -/
inductive StatError where
  | fileNotFound
  | permissionDenied
  | ioError
deriving DecidableEq, Repr

/-- Identity of a file as the spec defines it: the (device id, inode) pair
of a stat result. -/
def StatResult.identity (s : StatResult) : Nat × Nat :=
  (s.st_dev, s.st_ino)

/-- Embedding of `_check_file_state` (log_parser.py lines 30-49).
`pathStat` is the outcome of `os.stat(log_io.name)` (line 38): the code
catches only `FileNotFoundError` (line 39) and returns DELETED; any other
stat failure propagates, modelled as `.error e`. `handleStat` is
`os.stat(log_io.fileno())` (line 41), `seekable` is `log_io.seekable()`
(line 43) and `tell` is `await log_io.tell()` (line 45). The two stats are
snapshots of the filesystem at the poll. -/
def checkFileState (pathStat : Except StatError StatResult)
    (handleStat : StatResult) (seekable : Bool) (tell : Nat) :
    Except StatError FileState :=
  match pathStat with
  | .error .fileNotFound => .ok .DELETED
  | .error e => .error e
  | .ok same_name_file_stat =>
      .ok (if same_name_file_stat = handleStat then
             if !seekable then .NOCHANGE
             else if tell > handleStat.st_size then .TRUNCATED
             else .NOCHANGE
           else .DIFFERENT)

/-- The claim C3, stated as written: assuming both stats are snapshots of
one filesystem state, where the (device, inode) pair determines a file's
metadata (two stats agreeing on identity are stats of the same file and
hence equal), the classifier returns DIFFERENT exactly when the identities
differ. -/
theorem checkFileState_DIFFERENT_iff (ps hs : StatResult) (sk : Bool)
    (tell : Nat) (hid : ps.identity = hs.identity → ps = hs) :
    checkFileState (.ok ps) hs sk tell = .ok .DIFFERENT ↔
      ps.identity ≠ hs.identity := by
  constructor
  · intro h hEq
    have hps : ps = hs := hid hEq
    rw [hps] at h
    simp only [checkFileState, if_pos rfl, Except.ok.injEq] at h
    cases sk with
    | false => simp at h
    | true => by_cases ht : tell > hs.st_size <;> simp [ht] at h
  · intro h
    have hne : ps ≠ hs := by
      intro hEq
      exact h (by rw [hEq])
    simp [checkFileState, hne]

/-- Witness for `checkFileState_DIFFERENT_iff` at a concrete input: two
stat snapshots with distinct inodes. -/
theorem checkFileState_DIFFERENT_iff_witness :
    checkFileState (.ok ⟨0, 1, 5, 7⟩) ⟨0, 2, 5, 7⟩ true 0 =
      .ok .DIFFERENT :=
  (checkFileState_DIFFERENT_iff ⟨0, 1, 5, 7⟩ ⟨0, 2, 5, 7⟩ true 0
    (by decide)).mpr (by decide)

/-- Counterexample to claim C4 as stated: a permission-denied stat failure
is not classified as DELETED; the error propagates out of the classifier
(`_check_file_state` catches only `FileNotFoundError`). -/
theorem checkFileState_permissionDenied_propagates :
    checkFileState (.error .permissionDenied) ⟨0, 1, 5, 7⟩ true 0 =
        .error .permissionDenied ∧
      checkFileState (.error .permissionDenied) ⟨0, 1, 5, 7⟩ true 0 ≠
        .ok .DELETED :=
  ⟨rfl, fun h => Except.noConfusion h⟩

/-- Amended claim C4: only a not-found stat failure is classified as
DELETED; any other stat failure (permission denied, I/O error) propagates
out of `_check_file_state` unchanged. -/
theorem checkFileState_error_cases (e : StatError) (hs : StatResult)
    (sk : Bool) (tell : Nat) (h : e ≠ .fileNotFound) :
    checkFileState (.error e) hs sk tell = .error e := by
  cases e with
  | fileNotFound => exact absurd rfl h
  | permissionDenied => rfl
  | ioError => rfl

/-- Witness for `checkFileState_error_cases` at a concrete input. -/
theorem checkFileState_error_cases_witness :
    checkFileState (.error .ioError) ⟨0, 1, 5, 7⟩ true 0 =
      .error .ioError :=
  checkFileState_error_cases .ioError ⟨0, 1, 5, 7⟩ true 0 (by decide)

/-- One `readline` step of a Python text stream on the data after the
current position: the characters up to and including the first newline, or
everything up to end-of-stream when no newline remains. Used through
`readLines` to model the `async for line in log_io` iteration in
`track_file` (log_parser.py line 89). -/
def readLines : List Char → List (List Char)
  | [] => []
  | c :: cs =>
      if c = '\n' then ['\n'] :: readLines cs
      else
        match readLines cs with
        | [] => [[c]]
        | l :: ls => (c :: l) :: ls

/-- Changes a writer can make to the tracked file between two poll cycles
of `track_file`: append text, atomically truncate-and-rewrite the whole
content (open with mode w, write, close), or leave the file alone. -/
inductive FsEvent where
  | write (s : List Char)
  | truncWrite (s : List Char)
  | idle
deriving DecidableEq, Repr

/-- Applies one writer event to the file content. -/
def applyEvent (content : List Char) : FsEvent → List Char
  | .write s => content ++ s
  | .truncWrite s => s
  | .idle => content

/-- Stat snapshot of the tracked file when its content is `content`;
`ident` is its (device, inode) identity, which is unchanged by writes. -/
def statOfContent (ident : Nat × Nat) (content : List Char) : StatResult :=
  ⟨ident.1, ident.2, content.length, 0⟩

/-- The classifier `_check_file_state` specialized to the scenarios of
claims C1, C2 and C5: the path still resolves to the file the handle has
open (both stats are the same snapshot) and the stream is seekable, so the
outcome depends only on the read position and the current size:
TRUNCATED when `pos > content.length`, NOCHANGE otherwise.
`checkFileState_loop_spec` proves this agrees with `checkFileState`. -/
def classifySameFile (content : List Char) (pos : Nat) : FileState :=
  if pos > content.length then .TRUNCATED else .NOCHANGE

/-- The loop classifier agrees with `_check_file_state` on a same-file,
seekable snapshot. -/
theorem checkFileState_loop_spec (content : List Char) (pos : Nat) :
    checkFileState (.ok (statOfContent (0, 0) content))
        (statOfContent (0, 0) content) true pos =
      .ok (classifySameFile content pos) := by
  simp only [checkFileState, classifySameFile, if_pos rfl]
  by_cases h : pos > content.length <;> simp [statOfContent, h]

/-- One iteration of the `while True` loop of `track_file` (lines 86-111)
in the same-file scenario, acting on the read position and the list of
line payloads delivered to the handlers so far:
NOCHANGE drains every currently available line (each delivered payload is
exactly what Python readline returns, terminator included) and leaves the
position at end-of-stream; TRUNCATED seeks to offset zero (line 99) and
delivers nothing this cycle. -/
def cycleStep (content : List Char) (pos : Nat)
    (delivered : List (List Char)) : Nat × List (List Char) :=
  match classifySameFile content pos with
  | .TRUNCATED => (0, delivered)
  | _ => (content.length, delivered ++ readLines (content.drop pos))

/-- Runs the `track_file` loop for one cycle per scheduled writer event:
each cycle classifies and drains (or seeks), then the writer's event for
the inter-poll sleep is applied, until the run is cancelled (end of the
schedule). Returns the accumulated list of delivered line payloads. -/
def trackRun (content : List Char) (pos : Nat)
    (delivered : List (List Char)) : List FsEvent → List (List Char)
  | [] => delivered
  | e :: es =>
      let s := cycleStep content pos delivered
      trackRun (applyEvent content e) s.1 s.2 es

/-- Delivered line payloads of a `track_file` run: starting position is
end-of-stream when `tail` is set (lines 84-85) and zero otherwise. -/
def trackFileRun (content : List Char) (tail : Bool)
    (events : List FsEvent) : List (List Char) :=
  trackRun content (if tail then content.length else 0) [] events

/-- Concatenation of newline-terminated lines: the content of a file whose
complete lines are `lines`. -/
def joinNl (lines : List (List Char)) : List Char :=
  (lines.map (fun l => l ++ ['\n'])).flatten

theorem readLines_append_nl (l rest : List Char) (h : '\n' ∉ l) :
    readLines (l ++ '\n' :: rest) = (l ++ ['\n']) :: readLines rest := by
  induction l with
  | nil => simp [readLines]
  | cons c cs ih =>
      have hc : c ≠ '\n' := by
        intro hh
        exact h (hh ▸ List.mem_cons_self c cs)
      have h' : '\n' ∉ cs := fun hm => h (List.mem_cons_of_mem c hm)
      simp only [List.cons_append, readLines, if_neg hc, List.append_eq]
      rw [ih h']

theorem readLines_joinNl (lines : List (List Char))
    (h : ∀ l ∈ lines, '\n' ∉ l) :
    readLines (joinNl lines) = lines.map (fun l => l ++ ['\n']) := by
  induction lines with
  | nil => rfl
  | cons l ls ih =>
      simp only [joinNl, List.map_cons, List.flatten_cons, List.append_assoc,
        List.singleton_append]
      rw [readLines_append_nl l _ (h l (List.mem_cons_self l ls))]
      have := ih (fun x hx => h x (List.mem_cons_of_mem l hx))
      simp only [joinNl] at this
      rw [this]

theorem trackRun_steady (content : List Char) (d : List (List Char))
    (k : Nat) :
    trackRun content content.length d (List.replicate k .idle) = d := by
  induction k with
  | zero => rfl
  | succ n ih =>
      have hc : classifySameFile content content.length = .NOCHANGE := by
        simp [classifySameFile]
      simp only [List.replicate_succ, trackRun, cycleStep, hc,
        List.drop_length, applyEvent]
      simpa [readLines] using ih

/-- The claim C1: a file containing N complete newline-terminated lines at
start, tracked with tail=false, has all N lines delivered to the handlers
exactly once, in file order (the i-th delivered payload is the i-th line,
carrying its terminator), over a run of any positive number of poll
cycles — later polls redeliver nothing. -/
theorem track_file_delivers_all_lines (lines : List (List Char)) (k : Nat)
    (h : ∀ l ∈ lines, '\n' ∉ l) :
    trackFileRun (joinNl lines) false (List.replicate (k + 1) .idle) =
      lines.map (fun l => l ++ ['\n']) := by
  have h0 : classifySameFile (joinNl lines) 0 = .NOCHANGE := by
    simp [classifySameFile]
  have hcy : cycleStep (joinNl lines) 0 [] =
      ((joinNl lines).length, lines.map (fun l => l ++ ['\n'])) := by
    simp only [cycleStep, h0, List.drop_zero, List.nil_append]
    rw [readLines_joinNl lines h]
  have hstep : trackFileRun (joinNl lines) false
        (List.replicate (k + 1) .idle) =
      trackRun (joinNl lines) (cycleStep (joinNl lines) 0 []).1
        (cycleStep (joinNl lines) 0 []).2 (List.replicate k .idle) := rfl
  rw [hstep, hcy]
  exact trackRun_steady _ _ k

/-- Witness for `track_file_delivers_all_lines`: the two-line file
"a\nb\n" delivers exactly ["a\n", "b\n"]. -/
theorem track_file_delivers_all_lines_witness :
    trackFileRun (joinNl [['a'], ['b']]) false (List.replicate 1 .idle) =
      [['a', '\n'], ['b', '\n']] :=
  track_file_delivers_all_lines [['a'], ['b']] 0 (by decide)

/-- Counterexample to claim C2 as stated: for the file "a\nb" the
collected payloads are ["a\n", "b"], not ["a", "b"] — the final
unterminated line "b" is delivered as soon as end-of-stream is reached,
and terminators are not stripped before delivery. -/
theorem track_file_partial_line_counterexample :
    trackFileRun ['a', '\n', 'b'] false [.idle] = [['a', '\n'], ['b']] ∧
      ([['a', '\n'], ['b']] : List (List Char)) ≠ [['a'], ['b']] := by
  decide

/-- Amended claim C2: the tracker delivers a final unterminated line at
the current end-of-stream immediately (it is re-split, not withheld), and
each delivered line keeps its terminator; for the file "a\nb" with one
collecting handler the collected payloads are ["a\n", "b"]. -/
theorem track_file_delivers_partial_line :
    trackFileRun ['a', '\n', 'b'] false [.idle] = [['a', '\n'], ['b']] := by
  decide

/-- Counterexample to claim C5 as stated: for the file "x\n" that is
atomically truncated and rewritten to "y\n" between two polls, the read
position (2) never exceeds the new size (2), so the classifier never
reports TRUNCATED and the new content is never delivered — the collected
payloads stay ["x\n"], not ["x", "y"]. -/
theorem track_file_truncation_counterexample :
    trackFileRun ['x', '\n'] false
        [.truncWrite ['y', '\n'], .idle, .idle] = [['x', '\n']] ∧
      ([['x', '\n']] : List (List Char)) ≠ [['x'], ['y']] := by
  decide

/-- Amended claim C5: on a cycle where the classifier reports Truncated
the tracker seeks its handle to offset zero and delivers nothing that
cycle (no redelivery); but truncation is reported only when a poll
observes the file size below the read position. In scenario C, if a poll
observes the truncated file before the new content is written, the
collected payloads are ["x\n", "y\n"] (terminators retained); if the
truncate-and-rewrite completes between two polls, leaving the size at or
above the read position, the truncation goes undetected and the collected
payloads stay ["x\n"]. -/
theorem track_file_truncation_behaviour :
    (∀ (content : List Char) (pos : Nat) (d : List (List Char)),
        classifySameFile content pos = .TRUNCATED →
          cycleStep content pos d = (0, d)) ∧
      trackFileRun ['x', '\n'] false
        [.truncWrite [], .write ['y', '\n'], .idle] =
          [['x', '\n'], ['y', '\n']] ∧
      trackFileRun ['x', '\n'] false
        [.truncWrite ['y', '\n'], .idle, .idle] = [['x', '\n']] := by
  refine ⟨fun content pos d hcl => ?_, by decide, by decide⟩
  simp [cycleStep, hcl]

/-- Witness for `track_file_truncation_behaviour`: its first conjunct
applied to the empty file with read position 1. -/
theorem track_file_truncation_behaviour_witness :
    cycleStep [] 1 [] = (0, []) :=
  track_file_truncation_behaviour.1 [] 1 [] (by decide)

/-- Exceptions a tracker task can raise: the initial `open_file` failing,
a registered handler raising, or any other error. -/
inductive Exc where
  | openError
  | handlerError
  | otherError
deriving DecidableEq, Repr

/-- One registered line handler, as `track_file` sees it: either a
coroutine function (checked with `asyncio.iscoroutinefunction`, line 91)
or a plain function, together with its behaviour on a given line — normal
return or raising. -/
structure LineHandler where
  isCoroutine : Bool
  apply : List Char → Except Exc Unit

/-- Observable invocation of handler number `i` for one line: a plain
call (line 94) or an awaited call (line 92). -/
inductive CallEvent where
  | called (i : Nat)
  | awaited (i : Nat)
deriving DecidableEq, Repr

/-- Invocation event for handler `p` at registration index `i`, per the
`asyncio.iscoroutinefunction` dispatch in lines 91-94. -/
def invokeTag (i : Nat) (p : LineHandler) : CallEvent :=
  if p.isCoroutine then .awaited i else .called i

/-- The `for line_parser in line_parsers` loop of `track_file`
(lines 90-94) starting at registration index `i`: invokes each handler in
order on the line, recording the invocation, and stops at the first
handler that raises, propagating its exception. -/
def runLineHandlersFrom (line : List Char) (i : Nat) :
    List LineHandler → List CallEvent × Option Exc
  | [] => ([], none)
  | p :: ps =>
      match p.apply line with
      | .error e => ([invokeTag i p], some e)
      | .ok _ =>
          let r := runLineHandlersFrom line (i + 1) ps
          (invokeTag i p :: r.1, r.2)

/-- Invocations and outcome of delivering one line to the registered
handlers, in registration order. -/
def runLineHandlers (handlers : List LineHandler) (line : List Char) :
    List CallEvent × Option Exc :=
  runLineHandlersFrom line 0 handlers

theorem runLineHandlersFrom_all_ok (line : List Char)
    (ps : List LineHandler) (i : Nat)
    (h : ∀ p ∈ ps, p.apply line = .ok ()) :
    runLineHandlersFrom line i ps =
      ((ps.enumFrom i).map (fun q => invokeTag q.1 q.2), none) := by
  induction ps generalizing i with
  | nil => rfl
  | cons p ps ih =>
      have hp : p.apply line = .ok () := h p (List.mem_cons_self p ps)
      have hps : ∀ q ∈ ps, q.apply line = .ok () :=
        fun q hq => h q (List.mem_cons_of_mem p hq)
      simp only [runLineHandlersFrom, hp, ih (i + 1) hps, List.enumFrom,
        List.map_cons]

theorem runLineHandlersFrom_failure (line : List Char)
    (pre : List LineHandler) (p : LineHandler) (post : List LineHandler)
    (e : Exc) (i : Nat) (hpre : ∀ q ∈ pre, q.apply line = .ok ())
    (hp : p.apply line = .error e) :
    runLineHandlersFrom line i (pre ++ p :: post) =
      ((pre.enumFrom i).map (fun q => invokeTag q.1 q.2) ++
        [invokeTag (i + pre.length) p], some e) := by
  induction pre generalizing i with
  | nil => simp [runLineHandlersFrom, hp]
  | cons q qs ih =>
      have hq : q.apply line = .ok () := hpre q (List.mem_cons_self q qs)
      have hqs : ∀ r ∈ qs, r.apply line = .ok () :=
        fun r hr => hpre r (List.mem_cons_of_mem q hr)
      have harith : i + 1 + qs.length = i + (qs.length + 1) := by omega
      simp only [List.cons_append, runLineHandlersFrom, hq, List.append_eq]
      rw [ih (i + 1) hqs, harith]
      simp [List.enumFrom]

/-- The claim C8: delivering one line invokes every one of the registered
handlers exactly once, in registration order — the invocation sequence is
exactly the handlers enumerated by registration index, each awaited when
it is a coroutine function and called directly otherwise — and a
handler's failure ends the sequence at that handler (the remaining
handlers are not invoked) and propagates its exception. -/
theorem runLineHandlers_spec (handlers : List LineHandler)
    (line : List Char) :
    ((∀ p ∈ handlers, p.apply line = .ok ()) →
        runLineHandlers handlers line =
          (handlers.enum.map (fun q => invokeTag q.1 q.2), none)) ∧
      (∀ (pre : List LineHandler) (p : LineHandler)
          (post : List LineHandler) (e : Exc),
        handlers = pre ++ p :: post →
        (∀ q ∈ pre, q.apply line = .ok ()) → p.apply line = .error e →
        runLineHandlers handlers line =
          (pre.enum.map (fun q => invokeTag q.1 q.2) ++
            [invokeTag pre.length p], some e)) := by
  constructor
  · intro h
    exact runLineHandlersFrom_all_ok line handlers 0 h
  · intro pre p post e hsplit hpre hp
    rw [hsplit]
    have := runLineHandlersFrom_failure line pre p post e 0 hpre hp
    simpa [runLineHandlers, List.enum] using this

/-- Witness for `runLineHandlers_spec`: a mixed synchronous/suspending
handler list with no failure, and one with a failing second handler. -/
theorem runLineHandlers_spec_witness :
    runLineHandlers [⟨false, fun _ => .ok ()⟩, ⟨true, fun _ => .ok ()⟩]
        ['a'] = ([.called 0, .awaited 1], none) ∧
      runLineHandlers
        [⟨true, fun _ => .ok ()⟩, ⟨false, fun _ => .error .handlerError⟩,
          ⟨true, fun _ => .ok ()⟩] ['a'] =
        ([.awaited 0, .called 1], some .handlerError) := by
  constructor
  · exact (runLineHandlers_spec
      [⟨false, fun _ => .ok ()⟩, ⟨true, fun _ => .ok ()⟩] ['a']).1
      (by intro p hp; fin_cases hp <;> rfl)
  · exact (runLineHandlers_spec
      [⟨true, fun _ => .ok ()⟩, ⟨false, fun _ => .error .handlerError⟩,
        ⟨true, fun _ => .ok ()⟩] ['a']).2
      [⟨true, fun _ => .ok ()⟩] ⟨false, fun _ => .error .handlerError⟩
      [⟨true, fun _ => .ok ()⟩] .handlerError rfl
      (by intro q hq; fin_cases hq; rfl) rfl

/-- Behaviour of one `track_file` task run in isolation: it runs forever
(the normal case — the loop never returns), or it fails with an exception
(the initial `open_file` raising, or a handler raising). -/
inductive TrackerRun where
  | runs
  | fails (e : Exc)
deriving DecidableEq, Repr

/-- Whether a tracker behaviour is a failure. -/
def TrackerRun.isFails : TrackerRun → Bool
  | .runs => false
  | .fails _ => true

/-- Whether any tracker in the list fails. -/
def hasFailure (ts : List TrackerRun) : Bool :=
  ts.any TrackerRun.isFails

/-- Final status of one child task of the `asyncio.TaskGroup` opened by
`track_async` (line 133). -/
inductive TaskStatus where
  | running
  | failed (e : Exc)
  | cancelled
deriving DecidableEq, Repr

/-- Final statuses of the tracker tasks started by `track_async`
(lines 132-136), one per entry of `configs`, modelled from the documented
semantics of `asyncio.TaskGroup`: when a child task fails, every other
child is cancelled; with no failure all children keep running. The first
failure is modelled as occurring before any later one, so it is the only
task ending in `failed`. -/
def taskGroupStatuses : List TrackerRun → List TaskStatus
  | [] => []
  | .fails e :: ts => .failed e :: ts.map (fun _ => .cancelled)
  | .runs :: ts =>
      (if hasFailure ts then .cancelled else .running) ::
        taskGroupStatuses ts

/-- Index and exception of the first failing tracker, if any. -/
def firstFailure : List TrackerRun → Option (Nat × Exc)
  | [] => none
  | .fails e :: _ => some (0, e)
  | .runs :: ts => (firstFailure ts).map (fun p => (p.1 + 1, p.2))

/-- Exceptions that can escape `track_async` / `track`: the
`TimeoutError` raised by `asyncio.timeout` (line 132), or the
`ExceptionGroup` raised by `asyncio.TaskGroup` wrapping a child tracker's
exception. -/
inductive TrackExc where
  | timeoutError
  | exceptionGroup (e : Exc)
deriving DecidableEq, Repr

/-- Outcome of a `track_async` (equally `track`) invocation: it runs
forever, or raises; it never returns normally, because the tracker loops
never return. -/
inductive TrackOutcome where
  | runsForever
  | raises (e : TrackExc)
deriving DecidableEq, Repr

/-- Outcome of `track_async` without a deadline (`timeout=None`): the
first child failure is raised as an `ExceptionGroup`; with no failure the
group runs forever. -/
def trackAsyncNoTimeout (ts : List TrackerRun) : TrackOutcome :=
  match firstFailure ts with
  | some (_, e) => .raises (.exceptionGroup e)
  | none => .runsForever

theorem taskGroupStatuses_length (ts : List TrackerRun) :
    (taskGroupStatuses ts).length = ts.length := by
  induction ts with
  | nil => rfl
  | cons t ts ih =>
      cases t with
      | runs => simp [taskGroupStatuses, ih]
      | fails e => simp [taskGroupStatuses]

theorem hasFailure_firstFailure (ts : List TrackerRun)
    (h : hasFailure ts = true) : ∃ p, firstFailure ts = some p := by
  induction ts with
  | nil => simp [hasFailure] at h
  | cons t ts ih =>
      cases t with
      | fails e => exact ⟨(0, e), rfl⟩
      | runs =>
          have h' : hasFailure ts = true := by
            simpa [hasFailure, TrackerRun.isFails] using h
          obtain ⟨p, hp⟩ := ih h'
          exact ⟨(p.1 + 1, p.2), by simp [firstFailure, hp]⟩

theorem taskGroupStatuses_runs_cancelled (ts : List TrackerRun) :
    hasFailure ts = true → ∀ (i : Nat), ts[i]? = some .runs →
      (taskGroupStatuses ts)[i]? = some .cancelled := by
  induction ts with
  | nil => intro h i hi; simp at hi
  | cons t ts ih =>
      intro h i hi
      cases t with
      | fails e =>
          cases i with
          | zero => simp at hi
          | succ j =>
              simp only [List.getElem?_cons_succ] at hi
              have hj : j < ts.length := by
                by_contra hc
                rw [List.getElem?_eq_none (Nat.le_of_not_lt hc)] at hi
                exact Option.noConfusion hi
              simp [taskGroupStatuses, List.getElem?_map, hi, hj]
      | runs =>
          have h' : hasFailure ts = true := by
            simpa [hasFailure, TrackerRun.isFails] using h
          cases i with
          | zero => simp [taskGroupStatuses, h']
          | succ j =>
              simp only [List.getElem?_cons_succ] at hi
              simpa [taskGroupStatuses, h'] using ih h' j hi

/-- Counterexample to claim C6 as stated: two tracked files where the
first tracker's initial open fails; the sibling tracker, which would run
forever on its own, ends cancelled by the TaskGroup — it does not
continue tracking its file. -/
theorem taskGroup_sibling_counterexample :
    taskGroupStatuses [.fails .openError, .runs] =
        [.failed .openError, .cancelled] ∧
      (TaskStatus.cancelled ≠ TaskStatus.running) := by
  decide

/-- Amended claim C6: a failure confined to one file (its open failing or
a handler raising) is fatal to the whole `track_async` invocation: the
`asyncio.TaskGroup` cancels every sibling tracker — no tracker that would
keep running is left running — and `track_async` raises the failure
wrapped in an `ExceptionGroup`. -/
theorem taskGroup_failure_cancels_siblings (ts : List TrackerRun)
    (h : hasFailure ts = true) :
    (∀ (i : Nat), ts[i]? = some .runs →
        (taskGroupStatuses ts)[i]? = some .cancelled) ∧
      (∃ e, trackAsyncNoTimeout ts = .raises (.exceptionGroup e)) := by
  constructor
  · exact fun i hi => taskGroupStatuses_runs_cancelled ts h i hi
  · obtain ⟨p, hp⟩ := hasFailure_firstFailure ts h
    exact ⟨p.2, by simp [trackAsyncNoTimeout, hp]⟩

/-- Witness for `taskGroup_failure_cancels_siblings`: the concrete
two-tracker job of the counterexample, instantiated at the sibling. -/
theorem taskGroup_failure_cancels_siblings_witness :
    (taskGroupStatuses [.fails .openError, .runs])[1]? =
        some .cancelled ∧
      ∃ e, trackAsyncNoTimeout [.fails .openError, .runs] =
        .raises (.exceptionGroup e) :=
  ⟨(taskGroup_failure_cancels_siblings [.fails .openError, .runs]
      (by decide)).1 1 (by decide),
    (taskGroup_failure_cancels_siblings [.fails .openError, .runs]
      (by decide)).2⟩

/-- Outcome of the top-level `run` in cli.py: it returns normally, runs
forever, or lets an exception propagate to its caller. -/
inductive RunOutcome where
  | runsForever
  | returnsNormally
  | raises (e : TrackExc)
deriving DecidableEq, Repr

/-- Outcome of `track_async` (lines 130-136), hence of `track`, which
only wraps it in `asyncio.run` (line 152): the trackers never complete
naturally, so with a deadline `asyncio.timeout` raises `TimeoutError`
unless a child tracker fails first, in which case the TaskGroup's
`ExceptionGroup` propagates. `failure` is the first child failure with
the time at which it occurs (`none` when no tracker ever fails). -/
def trackModel (timeout : Option Nat) (failure : Option (Nat × Exc)) :
    TrackOutcome :=
  match timeout, failure with
  | none, none => .runsForever
  | none, some (_, e) => .raises (.exceptionGroup e)
  | some _, none => .raises .timeoutError
  | some T, some (t, e) =>
      if t < T then .raises (.exceptionGroup e) else .raises .timeoutError

/-- The `run` function of cli.py (lines 49-76): it calls `track` and
catches exactly `TimeoutError` (lines 73-76), returning normally; any
other exception propagates. -/
def runModel (o : TrackOutcome) : RunOutcome :=
  match o with
  | .runsForever => .runsForever
  | .raises .timeoutError => .returnsNormally
  | .raises e => .raises e

/-- The claim C7: if the timeout elapses before the trackers complete
(no child failure occurs before the deadline), `track` fails with
`TimeoutError`; `run` catches exactly that condition and returns
normally, while any other exception propagates out of `run`. -/
theorem run_timeout_spec (T : Nat) (failure : Option (Nat × Exc))
    (e : TrackExc) (hf : ∀ t ex, failure = some (t, ex) → T ≤ t)
    (he : e ≠ .timeoutError) :
    trackModel (some T) failure = .raises .timeoutError ∧
      runModel (trackModel (some T) failure) = .returnsNormally ∧
      runModel (.raises e) = .raises e := by
  have htrack : trackModel (some T) failure = .raises .timeoutError := by
    cases failure with
    | none => rfl
    | some p =>
        have hT : ¬ p.1 < T := Nat.not_lt.mpr (hf p.1 p.2 (by rfl))
        simp [trackModel, hT]
  refine ⟨htrack, by rw [htrack]; rfl, ?_⟩
  cases e with
  | timeoutError => exact absurd rfl he
  | exceptionGroup ex => rfl

/-- Witness for `run_timeout_spec`: a one-second deadline, no tracker
failure, and a propagating handler-failure exception group. -/
theorem run_timeout_spec_witness :
    trackModel (some 1) none = .raises .timeoutError ∧
      runModel (trackModel (some 1) none) = .returnsNormally ∧
      runModel (.raises (.exceptionGroup .handlerError)) =
        .raises (.exceptionGroup .handlerError) :=
  run_timeout_spec 1 none (.exceptionGroup .handlerError)
    (fun _ _ h => Option.noConfusion h)
    (fun h => TrackExc.noConfusion h)

/-- Resource events on the tracked file: handle number `h` is opened
(`open_file`, lines 81 and 105) or closed (`aclose`, lines 104 and 113).
Python file close is idempotent, so `aclose` on an already closed handle
produces no event. -/
inductive REvent where
  | opened (h : Nat)
  | closed (h : Nat)
deriving DecidableEq, Repr

/-- Whether a resource event is an open. -/
def REvent.isOpen : REvent → Bool
  | .opened _ => true
  | .closed _ => false

/-- What one iteration of the `track_file` loop encounters: the
classifier's verdict, whether the reopen on DIFFERENT succeeds (line
105), whether a handler raises during the NOCHANGE drain (lines 90-94),
and whether cancellation (the `track_file` timeout or job-level shutdown)
arrives at this cycle's suspension in `asyncio.sleep` (line 111). -/
structure Cycle where
  cls : FileState
  reopenOk : Bool
  handlerFails : Bool
  cancelAtSleep : Bool
deriving DecidableEq, Repr

/-- How the `track_file` loop ends: cancelled at a suspension point, or
by an exception propagating (handler failure, or reopen failure). -/
inductive LoopExit where
  | cancelled
  | errored
deriving DecidableEq, Repr

/-- Resource events of the `while True` loop of `track_file` (lines
86-114) run over a schedule of cycles, starting with handle `h` open and
`nxt` as the next handle number. Every exit path runs the `finally`
(line 113), closing whichever handle is then open; on DIFFERENT the old
handle is closed (line 104) before the replacement is opened (line 105),
and if that reopen fails the `finally` acts on the already closed old
handle, a no-op. An exhausted schedule stands for cancellation arriving
at the next suspension point. -/
def runCycles : Nat → Nat → List Cycle → List REvent × LoopExit
  | h, _, [] => ([.closed h], .cancelled)
  | h, nxt, c :: cs =>
      match c.cls with
      | .NOCHANGE =>
          if c.handlerFails then ([.closed h], .errored)
          else if c.cancelAtSleep then ([.closed h], .cancelled)
          else runCycles h nxt cs
      | .TRUNCATED =>
          if c.cancelAtSleep then ([.closed h], .cancelled)
          else runCycles h nxt cs
      | .DELETED =>
          if c.cancelAtSleep then ([.closed h], .cancelled)
          else runCycles h nxt cs
      | .DIFFERENT =>
          if c.reopenOk then
            if c.cancelAtSleep then
              (.closed h :: .opened nxt :: [.closed nxt], .cancelled)
            else
              (.closed h :: .opened nxt :: (runCycles nxt (nxt + 1) cs).1,
                (runCycles nxt (nxt + 1) cs).2)
          else ([.closed h], .errored)

/-- Resource events of one whole `track_file` run: the initial
`open_file` (line 81) either fails, ending the tracker with no handle
ever opened, or opens handle 0 and enters the loop. -/
def trackFileResources (openOk : Bool) (cycles : List Cycle) :
    List REvent × LoopExit :=
  if openOk then
    (.opened 0 :: (runCycles 0 1 cycles).1, (runCycles 0 1 cycles).2)
  else ([], .errored)

/-- Number of open events in a resource trace. -/
def opensIn (tr : List REvent) : Nat :=
  tr.countP REvent.isOpen

/-- Number of close events in a resource trace. -/
def closesIn (tr : List REvent) : Nat :=
  tr.countP (fun e => !e.isOpen)

/-- Shape of every event trace the loop can produce from a state with one
handle open: a run of close-then-reopen handovers ending in a final
close. -/
inductive HandoverSeq : List REvent → Prop where
  | last (h : Nat) : HandoverSeq [.closed h]
  | step (h h2 : Nat) (rest : List REvent) (hr : HandoverSeq rest) :
      HandoverSeq (.closed h :: .opened h2 :: rest)

theorem runCycles_handover (cs : List Cycle) : ∀ (h nxt : Nat),
    HandoverSeq (runCycles h nxt cs).1 := by
  induction cs with
  | nil => intro h nxt; exact HandoverSeq.last h
  | cons c cs ih =>
      intro h nxt
      obtain ⟨cls, ro, hf, ca⟩ := c
      cases cls <;> cases ro <;> cases hf <;> cases ca <;>
        simp only [runCycles] <;>
        first
          | exact HandoverSeq.last _
          | exact HandoverSeq.step _ _ _ (HandoverSeq.last _)
          | exact HandoverSeq.step _ _ _ (ih _ _)
          | exact ih _ _

theorem opensIn_nil : opensIn [] = 0 := rfl

theorem closesIn_nil : closesIn [] = 0 := rfl

theorem opensIn_cons_opened (h : Nat) (tr : List REvent) :
    opensIn (.opened h :: tr) = opensIn tr + 1 := by
  simp [opensIn, List.countP_cons, REvent.isOpen]

theorem opensIn_cons_closed (h : Nat) (tr : List REvent) :
    opensIn (.closed h :: tr) = opensIn tr := by
  simp [opensIn, List.countP_cons, REvent.isOpen]

theorem closesIn_cons_opened (h : Nat) (tr : List REvent) :
    closesIn (.opened h :: tr) = closesIn tr := by
  simp [closesIn, List.countP_cons, REvent.isOpen]

theorem closesIn_cons_closed (h : Nat) (tr : List REvent) :
    closesIn (.closed h :: tr) = closesIn tr + 1 := by
  simp [closesIn, List.countP_cons, REvent.isOpen]

theorem handover_total_counts (tr : List REvent) (hs : HandoverSeq tr) :
    closesIn tr = opensIn tr + 1 := by
  induction hs with
  | last h => rfl
  | step h h2 rest hr ih =>
      simp only [closesIn_cons_closed, closesIn_cons_opened,
        opensIn_cons_closed, opensIn_cons_opened]
      omega

theorem handover_prefix_counts (tr : List REvent) (hs : HandoverSeq tr)
    (n : Nat) :
    opensIn (tr.take n) ≤ closesIn (tr.take n) ∧
      closesIn (tr.take n) ≤ opensIn (tr.take n) + 1 := by
  induction hs generalizing n with
  | last h =>
      cases n with
      | zero => simp [opensIn_nil, closesIn_nil]
      | succ m =>
          simp only [List.take_succ_cons, List.take_nil,
            opensIn_cons_closed, closesIn_cons_closed, opensIn_nil,
            closesIn_nil]
          omega
  | step h h2 rest hr ih =>
      match n with
      | 0 => simp [opensIn_nil, closesIn_nil]
      | 1 =>
          simp only [List.take_succ_cons, List.take_zero,
            opensIn_cons_closed, closesIn_cons_closed, opensIn_nil,
            closesIn_nil]
          omega
      | Nat.succ (Nat.succ m) =>
          have hm := ih m
          simp only [List.take_succ_cons, opensIn_cons_closed,
            opensIn_cons_opened, closesIn_cons_closed,
            closesIn_cons_opened]
          omega

/-- The claim C9: over every schedule of classifier verdicts, reopen and
handler outcomes, and cancellation points, and on every exit path
(error, cancellation, initial open failure), the tracker's resource
trace keeps at most one handle open at every instant (in every prefix,
closes never exceed opens and opens never exceed closes by more than
one, so a DIFFERENT handover closes the old handle before opening the
replacement), and by the end of the run every opened handle has been
closed: total opens equal total closes. -/
theorem track_file_handle_discipline (openOk : Bool)
    (cycles : List Cycle) (n : Nat) :
    (closesIn ((trackFileResources openOk cycles).1.take n) ≤
        opensIn ((trackFileResources openOk cycles).1.take n) ∧
      opensIn ((trackFileResources openOk cycles).1.take n) ≤
        closesIn ((trackFileResources openOk cycles).1.take n) + 1) ∧
      opensIn (trackFileResources openOk cycles).1 =
        closesIn (trackFileResources openOk cycles).1 := by
  cases openOk with
  | false =>
      simp [trackFileResources, opensIn_nil, closesIn_nil]
  | true =>
      have htr : trackFileResources true cycles =
          (.opened 0 :: (runCycles 0 1 cycles).1,
            (runCycles 0 1 cycles).2) := rfl
      have hho := runCycles_handover cycles 0 1
      have htot := handover_total_counts _ hho
      rw [htr]
      constructor
      · cases n with
        | zero => simp [opensIn_nil, closesIn_nil]
        | succ m =>
            have hm := handover_prefix_counts _ hho m
            simp only [List.take_succ_cons, opensIn_cons_opened,
              closesIn_cons_opened]
            omega
      · simp only [opensIn_cons_opened, closesIn_cons_opened]
        omega

/-- Removes the first occurrence of `x` from the list, or returns the
list unchanged when `x` is absent. -/
def removeFirst : List String → String → List String
  | [], _ => []
  | a :: as, x => if a = x then as else a :: removeFirst as x

/-- The sys.path pop of `_load_parser_configs` (cli.py line 42): removes
the entry at the highest index equal to `x` — the last occurrence — and,
when `x` is no longer present (the `StopIteration` branch, line 44),
leaves the list unchanged. -/
def popLastOcc (l : List String) (x : String) : List String :=
  (removeFirst l.reverse x).reverse

/-- One entry of the `parsers` argument of `_load_parser_configs`
(cli.py lines 24-31): `pathAddition` is the realpath directory appended
to sys.path for it, and `importRaises` says whether importing one of its
parser files (lines 35-39) raises. Imported parser modules are modelled
as not themselves mutating sys.path. -/
structure ParserEntry where
  pathAddition : String
  importRaises : Bool
deriving DecidableEq, Repr

/-- The sys.path effect and exception behaviour of the main loop of
`_load_parser_configs` (cli.py lines 24-45): for each entry, append its
path addition to sys.path (line 32), run the imports, and in the
`finally` pop the last occurrence of the path addition (lines 40-45);
if an import raised, the exception propagates after the `finally`,
ending the loop. Returns the final sys.path and whether an exception
propagated out of the call. -/
def loadParserConfigsPath : List String → List ParserEntry →
    List String × Bool
  | sp, [] => (sp, false)
  | sp, e :: es =>
      if e.importRaises then
        (popLastOcc (sp ++ [e.pathAddition]) e.pathAddition, true)
      else
        loadParserConfigsPath
          (popLastOcc (sp ++ [e.pathAddition]) e.pathAddition) es

theorem popLastOcc_append (l : List String) (x : String) :
    popLastOcc (l ++ [x]) x = l := by
  simp [popLastOcc, removeFirst]

/-- The claim C10: `_load_parser_configs` leaves sys.path exactly as it
found it, on every call — each appended path addition is popped again
before the call returns, including when an import raises and the
exception propagates out of the call. -/
theorem load_parser_configs_syspath_restored (sp : List String)
    (entries : List ParserEntry) :
    (loadParserConfigsPath sp entries).1 = sp := by
  induction entries generalizing sp with
  | nil => rfl
  | cons e es ih =>
      by_cases hr : e.importRaises
      · simp [loadParserConfigsPath, hr, popLastOcc_append]
      · simp [loadParserConfigsPath, hr, popLastOcc_append, ih]

end LogParser
